import Mathlib

/-
  Verification development for the cloth_sim repository (src/main.rs,
  src/grid.rs, src/cloth.rs).

  The simulation scalars are `f32` in the source; they are modelled here by
  exact real numbers `ℝ`, the standard idealization of floating point for
  algebraic claims.  `nalgebra` points/vectors (`Point3<f32>`, `Vector3<f32>`)
  are modelled by the three-component structure `V3`.  Rust vector mutation is
  modelled by explicit list updates, and a panicking slice index by `Option`.

  Layout: all definitions first, then all theorems.
-/

open scoped Classical

noncomputable section

namespace ClothSim

/-! ### Definitions: vectors -/

/-- Three-component real vector, modelling `nalgebra` `Point3<f32>` and
`Vector3<f32>` (source: `type P = Point3<F>; type V = Vector3<F>` in
src/main.rs). -/
@[ext]
structure V3 where
  x : ℝ
  y : ℝ
  z : ℝ

instance : Zero V3 := ⟨⟨0, 0, 0⟩⟩
instance : Add V3 := ⟨fun a b => ⟨a.x + b.x, a.y + b.y, a.z + b.z⟩⟩
instance : Sub V3 := ⟨fun a b => ⟨a.x - b.x, a.y - b.y, a.z - b.z⟩⟩
instance : Neg V3 := ⟨fun a => ⟨-a.x, -a.y, -a.z⟩⟩
instance : SMul ℝ V3 := ⟨fun c a => ⟨c * a.x, c * a.y, c * a.z⟩⟩

/-- Componentwise division of a vector by a scalar (`nalgebra` `v / s`). -/
def V3.divS (v : V3) (s : ℝ) : V3 := ⟨v.x / s, v.y / s, v.z / s⟩

/-- Squared Euclidean norm (`nalgebra` `norm_squared`). -/
def V3.normSq (v : V3) : ℝ := v.x ^ 2 + v.y ^ 2 + v.z ^ 2

/-- Euclidean norm (`nalgebra` `norm`). -/
def V3.norm (v : V3) : ℝ := Real.sqrt v.normSq

/-- Sum of a list of vectors (used to state force accumulation). -/
def V3.vsum (l : List V3) : V3 := l.foldr (fun a b => a + b) 0

/-! ### Definitions: simulation constants (src/main.rs, src/cloth.rs) -/

/-- Time-step size (src/main.rs: `const DT: F = 0.05`). -/
def DT : ℝ := 0.05

/-- Squared time step (src/main.rs: `const DT_SQ: F = DT * DT`). -/
def DT_SQ : ℝ := DT * DT

/-- Number of passes of iterative constraint solving
(src/cloth.rs: `const CONSTRAINTS_ITER: I = 10`). -/
def CONSTRAINTS_ITER : Nat := 10

/-- Verlet damping factor (src/cloth.rs: `const DAMPING: F = 0.995`). -/
def DAMPING : ℝ := 0.995

/-- Grid resolution (src/cloth.rs: `const SUBDIVISIONS: I = 30`). -/
def SUBDIVISIONS : Nat := 30

/-- Collision-checking threshold (src/cloth.rs: `const EPSILON: F = 0.3`). -/
def EPSILON : ℝ := 0.3

/-! ### Definitions: particle (src/cloth.rs) -/

/-- One mass point of the cloth (src/cloth.rs `struct Particle`).  Field names
follow the source: `p` current position, `old_p` previous position, `a`
accumulated acceleration, `m` mass, `fixed` pinned flag. -/
@[ext]
structure Particle where
  p : V3
  old_p : V3
  a : V3
  m : ℝ
  fixed : Bool

/-- `Particle::new` (src/cloth.rs): position and previous position both at
`(x, y, z)`, zero acceleration, unit mass, not pinned. -/
def Particle.new (x y z : ℝ) : Particle :=
  { p := ⟨x, y, z⟩, old_p := ⟨x, y, z⟩, a := 0, m := 1, fixed := false }

instance : Inhabited Particle := ⟨Particle.new 0 0 0⟩

/-- `Particle::add_force` (src/cloth.rs): `self.a += f / self.m`. -/
def Particle.add_force (pt : Particle) (f : V3) : Particle :=
  { pt with a := pt.a + f.divS pt.m }

/-- `Particle::offset` (src/cloth.rs): `if !self.fixed { self.p += v }`. -/
def Particle.offset (pt : Particle) (v : V3) : Particle :=
  if pt.fixed then pt else { pt with p := pt.p + v }

/-- `Particle::step` (src/cloth.rs): Verlet position integration; no-op when
pinned.  `self.p += DAMPING * (self.p - self.old_p) + self.a * DT_SQ;
self.old_p = tmp; self.a = zero()`. -/
def Particle.step (pt : Particle) : Particle :=
  if pt.fixed then pt
  else
    { pt with
      p := pt.p + DAMPING • (pt.p - pt.old_p) + DT_SQ • pt.a
      old_p := pt.p
      a := 0 }

/-- Default particle used when reading a list with `List.getD`; accesses in the
simulation are always in bounds, so this default is never observed there. -/
def pd : Particle := default

/-! ### Definitions: list update and grid (src/grid.rs) -/

/-- In-place update of one list element, modelling `self.data[idx] = ...`
mutation through an index.  An out-of-bounds index leaves the list unchanged
(the Rust code would panic there; all simulation call sites are in bounds). -/
def modifyIdx (l : List α) (n : Nat) (f : α → α) : List α :=
  match l, n with
  | [], _ => []
  | a :: as, 0 => f a :: as
  | a :: as, k + 1 => a :: modifyIdx as k f

/-- Flattened 2-D grid (src/grid.rs `struct Grid<T>`).  `GridIdx = (I, I)`
with `I = usize` is modelled as `Nat × Nat`. -/
structure Grid (α : Type) where
  data : List α
  width : Nat

/-- Flattened slot of a coordinate: `idx.1 * self.width + idx.0`
(src/grid.rs, `Index`/`IndexMut` impls); for a Lean pair `(x, y)` this is
`y * width + x`. -/
def Grid.pos (g : Grid α) (idx : Nat × Nat) : Nat := idx.2 * g.width + idx.1

/-- Coordinate-indexed read, `&self.data[pos]` in the `Index` impl; the
out-of-bounds panic of the slice index is modelled by `none`. -/
def Grid.index? (g : Grid α) (idx : Nat × Nat) : Option α := g.data.get? (g.pos idx)

/-- Coordinate-indexed write, `&mut self.data[pos]` in the `IndexMut` impl;
the out-of-bounds panic is modelled by `none`. -/
def Grid.indexMut? (g : Grid α) (idx : Nat × Nat) (f : α → α) : Option (Grid α) :=
  if g.pos idx < g.data.length then some { g with data := modifyIdx g.data (g.pos idx) f }
  else none

/-- Total coordinate-indexed read with a default, used to state the simulation
functions (all simulation accesses are in bounds). -/
def Grid.atD [Inhabited α] (g : Grid α) (idx : Nat × Nat) : α :=
  g.data.getD (g.pos idx) default

/-- Total coordinate-indexed update, used by the simulation code paths whose
indices are in bounds by construction. -/
def Grid.modifyAt (g : Grid α) (idx : Nat × Nat) (f : α → α) : Grid α :=
  { g with data := modifyIdx g.data (g.pos idx) f }

/-! ### Definitions: constraints and the cloth system (src/cloth.rs) -/

/-- A spring between two grid coordinates with its rest length
(src/cloth.rs `struct Constraint`): fields `p1`, `p2`, `d`. -/
structure Constraint where
  p1 : Nat × Nat
  p2 : Nat × Nat
  d : ℝ

/-- `Constraint::new` (src/cloth.rs): rest length is the current distance
`(particles[p1].p - particles[p2].p).norm()`. -/
def Constraint.new (p1 p2 : Nat × Nat) (particles : Grid Particle) : Constraint :=
  { p1 := p1, p2 := p2, d := ((particles.atD p1).p - (particles.atD p2).p).norm }

/-- The cloth system (src/cloth.rs `struct Cloth`); the bevy mesh handle is
render-only state and is not part of the simulation model. -/
structure Cloth where
  particles : Grid Particle
  constraints : List Constraint

/-- `Cloth::add_force` (src/cloth.rs): apply one force to every particle. -/
def Cloth.add_force (c : Cloth) (force : V3) : Cloth :=
  { c with
    particles :=
      { c.particles with data := c.particles.data.map (fun q => q.add_force force) } }

/-- One constraint relaxation (body of the inner loop of `Cloth::step`):
`p12 = particles[p2].p - particles[p1].p; d = p12.norm();
f_c = DT * (d - constraint.d) * (p12 / d);
particles[p1].offset(f_c); particles[p2].offset(-f_c)`. -/
def relaxConstraint (g : Grid Particle) (c : Constraint) : Grid Particle :=
  let p12 := (g.atD c.p2).p - (g.atD c.p1).p
  let d := p12.norm
  let f_c := (DT * (d - c.d)) • p12.divS d
  let g1 := g.modifyAt c.p1 (fun q => q.offset f_c)
  g1.modifyAt c.p2 (fun q => q.offset (-f_c))

/-- One pass over the whole constraint list (inner `for constraint in
&self.constraints` loop of `Cloth::step`). -/
def relaxPass (g : Grid Particle) (cs : List Constraint) : Grid Particle :=
  cs.foldl relaxConstraint g

/-- The counted relaxation loop (`for _ in 0..CONSTRAINTS_ITER`). -/
def relaxLoop (n : Nat) (g : Grid Particle) (cs : List Constraint) : Grid Particle :=
  match n with
  | 0 => g
  | k + 1 => relaxLoop k (relaxPass g cs) cs

/-- Integration of every particle
(`self.particles.iter_mut().for_each(Particle::step)`). -/
def integrateAll (g : Grid Particle) : Grid Particle :=
  { g with data := g.data.map Particle.step }

/-- The pending collision correction for one ordered pair:
`diff = p2.p - p1.p; d = diff.norm(); ratio = EPSILON / d;
delta = diff * (1. - ratio)`. -/
def collideDelta (p1 p2 : Particle) : V3 :=
  let diff := p2.p - p1.p
  (1 - EPSILON / diff.norm) • diff

/-- The collision guard of `Cloth::step`: `p1 != p2 && d < EPSILON`.  Note the
inequality is on the whole `Particle` value (the derived `PartialEq`), not on
the positions alone. -/
def collideGuard (p1 p2 : Particle) : Prop :=
  p1 ≠ p2 ∧ (p2.p - p1.p).norm < EPSILON

/-- The adjustments one inner-loop iteration pushes:
`mods.push((i1, delta)); mods.push((i2, -delta))` under the guard.  `i1` is the
outer `enumerate` index; `i2` is the index the code actually pushes, namely the
inner `enumerate` index taken after `skip(i1)`. -/
def pairMods (i1 i2 : Nat) (p1 p2 : Particle) : List (Nat × V3) :=
  if collideGuard p1 p2 then
    [(i1, collideDelta p1 p2), (i2, -collideDelta p1 p2)]
  else []

/-- All pending adjustments of one collision pass, following the loop nest
`for (i1, p1) in self.particles.iter().enumerate() {
   for (i2, p2) in self.particles.iter().skip(i1).enumerate() { ... } }`.
The inner `enumerate` runs after `skip(i1)`, so its index `i2` restarts from
zero: the particle it walks at `i2` is `ps[i1 + i2]`. -/
def collisionMods (ps : List Particle) : List (Nat × V3) :=
  ps.enum.flatMap fun i1p =>
    (ps.drop i1p.1).enum.flatMap fun i2p =>
      pairMods i1p.1 i2p.1 i1p.2 i2p.2

/-- Deferred application of the pending adjustments
(`for (idx, delta) in mods { self.particles.data[idx].offset(delta) }`). -/
def applyMods (ps : List Particle) (mods : List (Nat × V3)) : List Particle :=
  mods.foldl (fun l iv => modifyIdx l iv.1 (fun q => q.offset iv.2)) ps

/-- `Cloth::step` (src/cloth.rs): constraint relaxation for
`CONSTRAINTS_ITER` passes, then integration of every particle, then the cheap
point-point collision pass with deferred application of the corrections.  (The
commented-out point-face mode in the source is disabled code and not
modelled.) -/
def Cloth.step (c : Cloth) : Cloth :=
  let g := relaxLoop CONSTRAINTS_ITER c.particles c.constraints
  let g2 := integrateAll g
  { c with particles := { g2 with data := applyMods g2.data (collisionMods g2.data) } }

/-! ### Definitions: construction (`Cloth::new`, src/cloth.rs)

The bevy mesh preparation in `Cloth::new` (index/normal/uv buffers) is
render-only and out of scope; only the particle grid, corner pinning and the
constraint network are modelled. -/

/-- The initial particle list of `Cloth::new`: row-major over
`y` then `x`, with positions `(width * x/S, -height * y/S,
0.5 * height * y/S + r)` where `r` is the random term
`rand::thread_rng().gen_range(20., 20.1)`, modelled by the oracle `rz`. -/
def clothParts (width height : ℝ) (rz : Nat → Nat → ℝ) : List Particle :=
  (List.range SUBDIVISIONS).flatMap fun (y : Nat) =>
    (List.range SUBDIVISIONS).map fun (x : Nat) =>
      Particle.new (width * ((x : ℝ) / (SUBDIVISIONS : ℝ)))
        (-height * ((y : ℝ) / (SUBDIVISIONS : ℝ)))
        (0.5 * height * ((y : ℝ) / (SUBDIVISIONS : ℝ)) + rz x y)

/-- The eight corner-region coordinates pinned at simulation start
(src/cloth.rs, the `particles[(..)].fixed = true` block). -/
def pinCoords : List (Nat × Nat) :=
  [(0, 0), (1, 0), (SUBDIVISIONS - 2, 0), (SUBDIVISIONS - 1, 0),
   (0, SUBDIVISIONS - 1), (1, SUBDIVISIONS - 1),
   (SUBDIVISIONS - 2, SUBDIVISIONS - 1), (SUBDIVISIONS - 1, SUBDIVISIONS - 1)]

/-- The corner-pinning assignments of `Cloth::new`, in source order. -/
def pinCorners (g : Grid Particle) : Grid Particle :=
  pinCoords.foldl (fun h idx => h.modifyAt idx (fun q => { q with fixed := true })) g

/-- The constraint network of `Cloth::new`: structural, shear and flexion
springs, in the source loop order. -/
def mkConstraints (g : Grid Particle) : List Constraint :=
  (List.range SUBDIVISIONS).flatMap fun y =>
    (List.range SUBDIVISIONS).flatMap fun x =>
      (if x < SUBDIVISIONS - 1 then [Constraint.new (x, y) (x + 1, y) g] else []) ++
      (if y < SUBDIVISIONS - 1 then [Constraint.new (x, y) (x, y + 1) g] else []) ++
      (if x < SUBDIVISIONS - 1 ∧ y < SUBDIVISIONS - 1 then
        [Constraint.new (x, y) (x + 1, y + 1) g,
         Constraint.new (x + 1, y) (x, y + 1) g] else []) ++
      (if x < SUBDIVISIONS - 2 then [Constraint.new (x, y) (x + 2, y) g] else []) ++
      (if y < SUBDIVISIONS - 2 then [Constraint.new (x, y) (x, y + 2) g] else [])

/-- `Cloth::new` (src/cloth.rs), simulation state only. -/
def Cloth.new (width height : ℝ) (rz : Nat → Nat → ℝ) : Cloth :=
  let particles := pinCorners (Grid.mk (clothParts width height rz) SUBDIVISIONS)
  { particles := particles, constraints := mkConstraints particles }

/-! ### Definitions: pinning query (`Cloth::set_fixed`, src/cloth.rs) -/

/-- Squared distance of a particle to the query point
(`(v.p - p).norm_squared()`). -/
def distKey (pt : V3) (q : Particle) : ℝ := (q.p - pt).normSq

/-- Ascending comparison on the squared-distance key, modelling the closure
passed to the sort (smaller key first; ties compare as equal). -/
def keyLE : ℝ × Nat → ℝ × Nat → Prop := fun a b => a.1 ≤ b.1

instance : IsTotal (ℝ × Nat) keyLE := ⟨fun a b => le_total a.1 b.1⟩

instance : IsTrans (ℝ × Nat) keyLE := ⟨fun _ _ _ hab hbc => le_trans hab hbc⟩

/-- Modelled from the spec: the lazysort crate call `sorted_by(...)` used by
`Cloth::set_fixed` is external to this repository; per the spec it is a
partial ascending sort by the squared-distance key whose ties keep
iteration/insertion order, modelled here as a stable insertion sort. -/
def sortKeyed (l : List (ℝ × Nat)) : List (ℝ × Nat) := List.insertionSort keyLE l

/-- The particle list keyed by squared distance, paired with each particle
index (the index models the `&mut` reference the code sorts). -/
def keyedOf (ps : List Particle) (pt : V3) : List (ℝ × Nat) :=
  ps.enum.map fun iq => (distKey pt iq.2, iq.1)

/-- The indices of the (up to) eight selected particles: `take(8)` of the
sorted keyed list. -/
def chosenIdx (ps : List Particle) (pt : V3) : List Nat :=
  ((sortKeyed (keyedOf ps pt)).take 8).map Prod.snd

/-- `Cloth::set_fixed` (src/cloth.rs): set the `fixed` flag of the (up to)
eight nearest particles (by squared distance) to the given value. -/
def Cloth.set_fixed (c : Cloth) (pt : V3) (b : Bool) : Cloth :=
  { c with
    particles :=
      { c.particles with
        data :=
          c.particles.data.enum.map fun iq =>
            if iq.1 ∈ chosenIdx c.particles.data pt then { iq.2 with fixed := b }
            else iq.2 } }

/-! ### Definitions: auxiliary scenarios used by individual claims -/

/-- An interaction on one particle: a positional correction (`offset`) or one
integration (`step`); used to state pin immovability over arbitrary call
sequences. -/
inductive POp where
  | push (v : V3)
  | integ

/-- Apply one interaction to a particle. -/
def applyOp (pt : Particle) : POp → Particle
  | POp.push v => pt.offset v
  | POp.integ => pt.step

/-- Apply a sequence of interactions in order. -/
def applyOps (pt : Particle) (ops : List POp) : Particle := ops.foldl applyOp pt

/-- A run of simulation ticks seen from one particle: each tick applies one
external force (`Cloth::add_force`) and then integrates (`Particle::step`). -/
def forcedTicks (fs : List V3) (pt : Particle) : Particle :=
  fs.foldl (fun q f => (q.add_force f).step) pt

/-- First particle of a coincident pair: at the origin, fresh state. -/
def coincA : Particle := Particle.new 0 0 0

/-- Second particle of the coincident pair: same position as `coincA` but a
different previous position (as arises after particles move). -/
def coincB : Particle := { Particle.new 0 0 0 with old_p := ⟨1, 0, 0⟩ }

/-- Concrete endpoint at the origin for single-constraint scenarios. -/
def wq1 : Particle := Particle.new 0 0 0

/-- Concrete endpoint at `(2, 0, 0)` for single-constraint scenarios. -/
def wq2 : Particle := Particle.new 2 0 0

/-- A two-particle grid of width 2 holding `wq1` and `wq2`. -/
def wG : Grid Particle := Grid.mk [wq1, wq2] 2

/-- A single constraint between the two cells of `wG` with rest length 1. -/
def wCt : Constraint := Constraint.mk (0, 0) (1, 0) 1

/-- A trivial cloth used to instantiate the step-structure statements. -/
def wCloth : Cloth := Cloth.mk wG [wCt]

/-- Collision scenario, particle 0: at the origin, far from the others. -/
def bugP0 : Particle := Particle.new 0 0 0

/-- Collision scenario, particle 1: at `x = 10`. -/
def bugP1 : Particle := Particle.new 10 0 0

/-- Collision scenario, particle 2: at `x = 10.2`, within `EPSILON = 0.3` of
particle 1. -/
def bugP2 : Particle := Particle.new 10.2 0 0

/-! ### Helper lemmas: vector components and norms -/

@[simp] theorem V3.zero_x : (0 : V3).x = 0 := rfl

@[simp] theorem V3.zero_y : (0 : V3).y = 0 := rfl

@[simp] theorem V3.zero_z : (0 : V3).z = 0 := rfl

@[simp] theorem V3.add_x (a b : V3) : (a + b).x = a.x + b.x := rfl

@[simp] theorem V3.add_y (a b : V3) : (a + b).y = a.y + b.y := rfl

@[simp] theorem V3.add_z (a b : V3) : (a + b).z = a.z + b.z := rfl

@[simp] theorem V3.sub_x (a b : V3) : (a - b).x = a.x - b.x := rfl

@[simp] theorem V3.sub_y (a b : V3) : (a - b).y = a.y - b.y := rfl

@[simp] theorem V3.sub_z (a b : V3) : (a - b).z = a.z - b.z := rfl

@[simp] theorem V3.neg_x (a : V3) : (-a).x = -a.x := rfl

@[simp] theorem V3.neg_y (a : V3) : (-a).y = -a.y := rfl

@[simp] theorem V3.neg_z (a : V3) : (-a).z = -a.z := rfl

@[simp] theorem V3.smul_x (c : ℝ) (a : V3) : (c • a).x = c * a.x := rfl

@[simp] theorem V3.smul_y (c : ℝ) (a : V3) : (c • a).y = c * a.y := rfl

@[simp] theorem V3.smul_z (c : ℝ) (a : V3) : (c • a).z = c * a.z := rfl

@[simp] theorem V3.divS_x (v : V3) (s : ℝ) : (v.divS s).x = v.x / s := rfl

@[simp] theorem V3.divS_y (v : V3) (s : ℝ) : (v.divS s).y = v.y / s := rfl

@[simp] theorem V3.divS_z (v : V3) (s : ℝ) : (v.divS s).z = v.z / s := rfl

theorem V3.normSq_nonneg (v : V3) : 0 ≤ v.normSq := by
  unfold V3.normSq; positivity

theorem V3.norm_nonneg (v : V3) : 0 ≤ v.norm := Real.sqrt_nonneg _

@[simp] theorem V3.norm_zero : (0 : V3).norm = 0 := by
  simp [V3.norm, V3.normSq]

/-- Norm of an x-axis-aligned vector. -/
theorem V3.norm_axisX (t : ℝ) : (V3.mk t 0 0).norm = |t| := by
  have h : (V3.mk t 0 0).normSq = t ^ 2 := by simp [V3.normSq]
  rw [V3.norm, h, Real.sqrt_sq_eq_abs]

theorem V3.norm_smul (c : ℝ) (v : V3) : (c • v).norm = |c| * v.norm := by
  have h : (c • v).normSq = c ^ 2 * v.normSq := by
    simp [V3.normSq]; ring
  rw [V3.norm, h, Real.sqrt_mul (sq_nonneg c), Real.sqrt_sq_eq_abs, V3.norm]

theorem V3.divS_eq_smul (v : V3) (s : ℝ) : v.divS s = (1 / s) • v := by
  ext <;> simp <;> ring

theorem V3.smul_smul' (c r : ℝ) (v : V3) : c • r • v = (c * r) • v := by
  ext <;> simp <;> ring

@[simp] theorem V3.vsum_nil : V3.vsum [] = 0 := rfl

@[simp] theorem V3.vsum_cons (a : V3) (l : List V3) :
    V3.vsum (a :: l) = a + V3.vsum l := rfl

/-! ### Helper lemmas: particle operations -/

@[simp] theorem Particle.add_force_p (pt : Particle) (f : V3) :
    (pt.add_force f).p = pt.p := rfl

@[simp] theorem Particle.add_force_old (pt : Particle) (f : V3) :
    (pt.add_force f).old_p = pt.old_p := rfl

@[simp] theorem Particle.add_force_a (pt : Particle) (f : V3) :
    (pt.add_force f).a = pt.a + f.divS pt.m := rfl

@[simp] theorem Particle.add_force_m (pt : Particle) (f : V3) :
    (pt.add_force f).m = pt.m := rfl

@[simp] theorem Particle.add_force_fixed (pt : Particle) (f : V3) :
    (pt.add_force f).fixed = pt.fixed := rfl

theorem Particle.offset_of_fixed {pt : Particle} (h : pt.fixed = true) (v : V3) :
    pt.offset v = pt := by simp [Particle.offset, h]

theorem Particle.offset_of_not_fixed {pt : Particle} (h : pt.fixed = false) (v : V3) :
    pt.offset v = { pt with p := pt.p + v } := by simp [Particle.offset, h]

theorem Particle.step_of_fixed {pt : Particle} (h : pt.fixed = true) : pt.step = pt := by
  simp [Particle.step, h]

theorem Particle.step_of_not_fixed {pt : Particle} (h : pt.fixed = false) :
    pt.step =
      { pt with
        p := pt.p + DAMPING • (pt.p - pt.old_p) + DT_SQ • pt.a
        old_p := pt.p
        a := 0 } := by
  simp [Particle.step, h]

@[simp] theorem Particle.offset_fixed (pt : Particle) (v : V3) :
    (pt.offset v).fixed = pt.fixed := by
  unfold Particle.offset; split <;> rfl

@[simp] theorem Particle.offset_old (pt : Particle) (v : V3) :
    (pt.offset v).old_p = pt.old_p := by
  unfold Particle.offset; split <;> rfl

@[simp] theorem Particle.offset_a (pt : Particle) (v : V3) :
    (pt.offset v).a = pt.a := by
  unfold Particle.offset; split <;> rfl

@[simp] theorem Particle.offset_m (pt : Particle) (v : V3) :
    (pt.offset v).m = pt.m := by
  unfold Particle.offset; split <;> rfl

/-! ### Helper lemmas: list update -/

@[simp] theorem modifyIdx_nil (n : Nat) (f : α → α) : modifyIdx ([] : List α) n f = [] := by
  cases n <;> rfl

@[simp] theorem modifyIdx_cons_zero (a : α) (as : List α) (f : α → α) :
    modifyIdx (a :: as) 0 f = f a :: as := rfl

@[simp] theorem modifyIdx_cons_succ (a : α) (as : List α) (k : Nat) (f : α → α) :
    modifyIdx (a :: as) (k + 1) f = a :: modifyIdx as k f := rfl

@[simp] theorem length_modifyIdx (l : List α) (n : Nat) (f : α → α) :
    (modifyIdx l n f).length = l.length := by
  induction l generalizing n with
  | nil => simp
  | cons a as ih =>
    cases n with
    | zero => rfl
    | succ k => simp [ih]

theorem getD_modifyIdx (l : List α) (n : Nat) (f : α → α) (j : Nat) (d : α) :
    (modifyIdx l n f).getD j d =
      if j = n ∧ j < l.length then f (l.getD j d) else l.getD j d := by
  induction l generalizing n j with
  | nil => simp
  | cons a as ih =>
    cases n with
    | zero =>
      cases j with
      | zero => simp
      | succ i => simp
    | succ k =>
      cases j with
      | zero => simp
      | succ i =>
        simp only [modifyIdx_cons_succ, List.getD_cons_succ]
        rw [ih k i]
        simp only [List.length_cons]
        by_cases h : i = k ∧ i < as.length
        · rw [if_pos h, if_pos (by omega)]
        · rw [if_neg h, if_neg (by omega)]

@[simp] theorem Grid.modifyAt_data (g : Grid α) (idx : Nat × Nat) (f : α → α) :
    (g.modifyAt idx f).data = modifyIdx g.data (g.pos idx) f := rfl

@[simp] theorem Grid.modifyAt_width (g : Grid α) (idx : Nat × Nat) (f : α → α) :
    (g.modifyAt idx f).width = g.width := rfl

theorem V3.add_assoc' (a b c : V3) : a + b + c = a + (b + c) := by
  ext <;> simp <;> ring

theorem getD_map_of_lt (g : α → β) (l : List α) (j : Nat) (h : j < l.length)
    (d : β) (d2 : α) : (l.map g).getD j d = g (l.getD j d2) := by
  induction l generalizing j with
  | nil => simp at h
  | cons a as ih =>
    cases j with
    | zero => simp
    | succ i =>
      simp only [List.map_cons, List.getD_cons_succ]
      exact ih i (by simpa using h)

/-- A pair whose two particles are equal as records never passes the collision
guard (the source comparison is the derived `PartialEq` on `Particle`). -/
theorem pairMods_self (i j : Nat) (q : Particle) : pairMods i j q q = [] := by
  rw [pairMods, if_neg]
  intro hg
  exact hg.1 rfl

/-! ### Claim C5: the integration rule -/

/-- Claim C5: one `integrate()` call (`Particle::step`) on a non-pinned
particle sets the position to
`position + DAMPING * (position - previous_position) + acceleration * dt^2`,
sets the previous position to the pre-update position, and resets the
acceleration to zero; on a pinned particle it leaves position, previous
position and acceleration all unchanged. -/
theorem C5_integrate_spec (pt : Particle) :
    (pt.fixed = false →
        pt.step.p = pt.p + DAMPING • (pt.p - pt.old_p) + DT_SQ • pt.a ∧
        pt.step.old_p = pt.p ∧ pt.step.a = 0 ∧ pt.step.m = pt.m ∧
        pt.step.fixed = pt.fixed) ∧
    (pt.fixed = true →
        pt.step.p = pt.p ∧ pt.step.old_p = pt.old_p ∧ pt.step.a = pt.a) := by
  constructor
  · intro h
    rw [Particle.step_of_not_fixed h]
    exact ⟨rfl, rfl, rfl, rfl, h.symm ▸ rfl⟩
  · intro h
    rw [Particle.step_of_fixed h]
    exact ⟨rfl, rfl, rfl⟩

/-- Witness for C5: evaluation at a concrete free particle and a concrete
pinned particle. -/
theorem C5_integrate_spec_witness :
    ((Particle.new 1 2 3).fixed = false ∧
      (Particle.new 1 2 3).step.old_p = (Particle.new 1 2 3).p ∧
      (Particle.new 1 2 3).step.a = 0) ∧
    (({ Particle.new 1 2 3 with fixed := true } : Particle).fixed = true ∧
      ({ Particle.new 1 2 3 with fixed := true } : Particle).step.p =
        ({ Particle.new 1 2 3 with fixed := true } : Particle).p) :=
  ⟨⟨rfl, ((C5_integrate_spec (Particle.new 1 2 3)).1 rfl).2.1,
      ((C5_integrate_spec (Particle.new 1 2 3)).1 rfl).2.2.1⟩,
    ⟨rfl, ((C5_integrate_spec { Particle.new 1 2 3 with fixed := true }).2 rfl).1⟩⟩

/-! ### Claim C8: pin immovability -/

/-- Claim C8: for a particle whose pinned flag is true, any sequence of
`offset` and `integrate` calls leaves both its position and its previous
position unchanged (the flag itself also never changes). -/
theorem C8_pin_immovable (pt : Particle) (h : pt.fixed = true) (ops : List POp) :
    (applyOps pt ops).p = pt.p ∧ (applyOps pt ops).old_p = pt.old_p ∧
    (applyOps pt ops).fixed = true := by
  induction ops generalizing pt with
  | nil => exact ⟨rfl, rfl, h⟩
  | cons op rest ih =>
    have hstep : applyOp pt op = pt := by
      cases op with
      | push v => exact Particle.offset_of_fixed h v
      | integ => exact Particle.step_of_fixed h
    have hrw : applyOps pt (op :: rest) = applyOps (applyOp pt op) rest := rfl
    rw [hrw, hstep]
    exact ih pt h

/-- Witness for C8: a pinned particle subjected to an offset followed by an
integration keeps its position. -/
theorem C8_pin_immovable_witness :
    ({ Particle.new 4 5 6 with fixed := true } : Particle).fixed = true ∧
    (applyOps { Particle.new 4 5 6 with fixed := true }
        [POp.push ⟨1, 2, 3⟩, POp.integ, POp.push ⟨-1, 0, 0⟩]).p =
      ({ Particle.new 4 5 6 with fixed := true } : Particle).p :=
  ⟨rfl,
    (C8_pin_immovable { Particle.new 4 5 6 with fixed := true } rfl
        [POp.push ⟨1, 2, 3⟩, POp.integ, POp.push ⟨-1, 0, 0⟩]).1⟩

/-! ### Claim C2: grid accessor failure condition -/

/-- Claim C2 counterexample: on a width-2 grid backed by four elements, the
coordinate `(3, 0)` has `x >= width`, yet the accessor does not fail: it
returns the element at the flattened slot `0 * 2 + 3 = 3`.  The claim says
every such access must be a hard failure. -/
theorem C2_oob_x_returns_element :
    (Grid.mk ([10, 20, 30, 40] : List Nat) 2).index? (3, 0) = some 40 ∧
    (Grid.mk ([10, 20, 30, 40] : List Nat) 2).index? (3, 0) ≠ none ∧
    (Grid.mk ([10, 20, 30, 40] : List Nat) 2).width ≤ 3 := by
  refine ⟨rfl, ?_, by norm_num⟩
  intro h
  simp [Grid.index?, Grid.pos] at h

/-- Claim C2 amended: the accessors fail (out-of-bounds, modelled `none`)
exactly when the flattened index `y * width + x` falls outside the backing
sequence, and they never clamp: a successful read returns precisely the
element at the flattened slot and a successful write updates precisely that
slot.  A coordinate with `x >= width` whose flattened index is still in
range does not fail (it resolves to the wrapped-around slot). -/
theorem C2_grid_index_fail_iff {α : Type} (g : Grid α) (x y : Nat) (f : α → α) :
    (g.index? (x, y) = none ↔ g.data.length ≤ y * g.width + x) ∧
    (∀ a, g.index? (x, y) = some a → g.data.get? (y * g.width + x) = some a) ∧
    (g.indexMut? (x, y) f = none ↔ g.data.length ≤ y * g.width + x) ∧
    (∀ g2, g.indexMut? (x, y) f = some g2 →
        g2 = { g with data := modifyIdx g.data (y * g.width + x) f }) := by
  have hpos : g.pos (x, y) = y * g.width + x := rfl
  refine ⟨?_, ?_, ?_, ?_⟩
  · rw [Grid.index?, hpos, List.get?_eq_none]
  · intro a ha
    rw [Grid.index?, hpos] at ha
    exact ha
  · rw [Grid.indexMut?, hpos]
    constructor
    · intro h
      by_contra hlt
      rw [if_pos (by omega)] at h
      exact Option.noConfusion h
    · intro h
      rw [if_neg (by omega)]
  · intro g2 h
    rw [Grid.indexMut?, hpos] at h
    by_cases hlt : y * g.width + x < g.data.length
    · rw [if_pos hlt] at h
      exact (Option.some.injEq _ _ ▸ h).symm
    · rw [if_neg hlt] at h
      exact Option.noConfusion h

/-- Witness for C2 amended: a concrete in-range and a concrete out-of-range
access on a width-1 grid. -/
theorem C2_grid_index_fail_iff_witness :
    ((Grid.mk ([5] : List Nat) 1).index? (0, 1) = none ↔
      (Grid.mk ([5] : List Nat) 1).data.length ≤ 1 * 1 + 0) ∧
    (∀ a, (Grid.mk ([5] : List Nat) 1).index? (0, 1) = some a →
      (Grid.mk ([5] : List Nat) 1).data.get? (1 * 1 + 0) = some a) ∧
    ((Grid.mk ([5] : List Nat) 1).indexMut? (0, 1) id = none ↔
      (Grid.mk ([5] : List Nat) 1).data.length ≤ 1 * 1 + 0) ∧
    (∀ g2, (Grid.mk ([5] : List Nat) 1).indexMut? (0, 1) id = some g2 →
      g2 = { Grid.mk ([5] : List Nat) 1 with
              data := modifyIdx ([5] : List Nat) (1 * 1 + 0) id }) :=
  C2_grid_index_fail_iff (Grid.mk ([5] : List Nat) 1) 0 1 id

/-! ### Claim C3: exclusion of coincident pairs -/

theorem coincA_ne_coincB : coincA ≠ coincB := by
  intro h
  have h2 := congrArg Particle.old_p h
  have h3 := congrArg V3.x h2
  simp [coincA, coincB, Particle.new] at h3

theorem coincA_p_eq : coincA.p = coincB.p := rfl

/-- Claim C3 counterexample: two particles at exactly the same position whose
remaining state differs (here the previous position) are not excluded by the
equality check: one collision pass over the two-particle list pushes the
adjustments of that pair.  In the f32 source this pair computes
`ratio = EPSILON / 0.0`, exactly the division by zero the claim rules out. -/
theorem C3_coincident_pair_not_excluded :
    coincA.p = coincB.p ∧ collisionMods [coincA, coincB] ≠ [] := by
  have hzero : coincB.p - coincA.p = 0 := by
    ext <;> simp [coincA, coincB, Particle.new]
  have hguard : collideGuard coincA coincB := by
    refine ⟨coincA_ne_coincB, ?_⟩
    rw [hzero, V3.norm_zero, EPSILON]
    norm_num
  have e1 : pairMods 0 0 coincA coincA = [] := pairMods_self 0 0 coincA
  have e2 : pairMods 1 0 coincB coincB = [] := pairMods_self 1 0 coincB
  have e3 : pairMods 0 1 coincA coincB =
      [(0, collideDelta coincA coincB), (1, -collideDelta coincA coincB)] := by
    rw [pairMods, if_pos hguard]
  refine ⟨coincA_p_eq, ?_⟩
  have hmods : collisionMods [coincA, coincB] =
      [(0, collideDelta coincA coincB), (1, -collideDelta coincA coincB)] := by
    simp [collisionMods, List.enum, List.enumFrom, e1, e2, e3]
  rw [hmods]
  simp

/-- Claim C3 amended: the pass excludes a pair exactly by whole-record
equality (the derived `PartialEq` on `Particle`): if the two particles are
equal as records no adjustment is pushed; a pair at exactly zero separation
whose remaining state differs passes the guard instead, and its two
adjustments are pushed with the correction computed from the zero distance. -/
theorem C3_zero_separation_guard (i j : Nat) (p1 p2 : Particle) :
    (p1 = p2 → pairMods i j p1 p2 = []) ∧
    (p1 ≠ p2 → p1.p = p2.p →
      pairMods i j p1 p2 = [(i, collideDelta p1 p2), (j, -collideDelta p1 p2)]) := by
  constructor
  · rintro rfl
    exact pairMods_self i j p1
  · intro hne hp
    have hzero : p2.p - p1.p = 0 := by rw [hp]; ext <;> simp
    have hg : collideGuard p1 p2 := by
      refine ⟨hne, ?_⟩
      rw [hzero, V3.norm_zero, EPSILON]
      norm_num
    rw [pairMods, if_pos hg]

/-- Witness for C3 amended: evaluation at the coincident pair and at an
identical pair. -/
theorem C3_zero_separation_guard_witness :
    (coincA = coincA ∧ pairMods 2 3 coincA coincA = []) ∧
    (coincA ≠ coincB ∧ coincA.p = coincB.p ∧
      pairMods 2 3 coincA coincB =
        [(2, collideDelta coincA coincB), (3, -collideDelta coincA coincB)]) :=
  ⟨⟨rfl, (C3_zero_separation_guard 2 3 coincA coincA).1 rfl⟩,
    ⟨coincA_ne_coincB, coincA_p_eq,
      (C3_zero_separation_guard 2 3 coincA coincB).2 coincA_ne_coincB coincA_p_eq⟩⟩

/-! ### Claim C10: force accumulation on pinned particles -/

/-- Claim C10: integration never resets the acceleration of a pinned particle,
while `add_force` accumulates `f / m` into every particle; so a particle
pinned over a run of ticks accumulates all the forces of those ticks, and if
then unpinned its first integration applies the whole accumulated
acceleration.  The last conjunct states the cloth-level `add_force` effect on
every particle index, pinned or not. -/
theorem C10_pinned_accumulates (pt : Particle) (h : pt.fixed = true) (fs : List V3) :
    (forcedTicks fs pt).p = pt.p ∧
    (forcedTicks fs pt).old_p = pt.old_p ∧
    (forcedTicks fs pt).m = pt.m ∧
    (forcedTicks fs pt).fixed = true ∧
    (forcedTicks fs pt).a = pt.a + V3.vsum (fs.map fun f => f.divS pt.m) ∧
    ({ forcedTicks fs pt with fixed := false } : Particle).step.p =
      pt.p + DAMPING • (pt.p - pt.old_p) +
        DT_SQ • (pt.a + V3.vsum (fs.map fun f => f.divS pt.m)) ∧
    (∀ (c : Cloth) (f : V3) (j : Nat), j < c.particles.data.length →
        ((c.add_force f).particles.data.getD j pd).a =
          (c.particles.data.getD j pd).a + f.divS ((c.particles.data.getD j pd).m)) := by
  have main : ∀ (fs : List V3) (pt : Particle), pt.fixed = true →
      (forcedTicks fs pt).p = pt.p ∧
      (forcedTicks fs pt).old_p = pt.old_p ∧
      (forcedTicks fs pt).m = pt.m ∧
      (forcedTicks fs pt).fixed = true ∧
      (forcedTicks fs pt).a = pt.a + V3.vsum (fs.map fun f => f.divS pt.m) := by
    intro fs
    induction fs with
    | nil =>
      intro pt h
      refine ⟨rfl, rfl, rfl, h, ?_⟩
      ext <;> simp [forcedTicks]
    | cons f rest ih =>
      intro pt h
      have hfix : (pt.add_force f).fixed = true := by
        rw [Particle.add_force_fixed]; exact h
      have hstep : (pt.add_force f).step = pt.add_force f :=
        Particle.step_of_fixed hfix
      have hrw : forcedTicks (f :: rest) pt = forcedTicks rest (pt.add_force f) := by
        simp [forcedTicks, hstep]
      obtain ⟨ihp, iho, ihm, ihf, iha⟩ := ih (pt.add_force f) hfix
      rw [hrw]
      refine ⟨ihp, iho, ihm, ihf, ?_⟩
      rw [iha]
      simp only [Particle.add_force_a, Particle.add_force_m, List.map, V3.vsum_cons]
      rw [V3.add_assoc']
  obtain ⟨hp, ho, hm, hf, ha⟩ := main fs pt h
  refine ⟨hp, ho, hm, hf, ha, ?_, ?_⟩
  · have hnf : ({ forcedTicks fs pt with fixed := false } : Particle).fixed = false := rfl
    rw [Particle.step_of_not_fixed hnf]
    simp only [hp, ho, ha]
  · intro c f j hj
    have : (c.add_force f).particles.data = c.particles.data.map fun q => q.add_force f := rfl
    rw [this, getD_map_of_lt (fun q => q.add_force f) c.particles.data j hj pd pd]
    rfl

/-- Witness for C10: a particle pinned through two forced ticks holds the two
accumulated specific forces. -/
theorem C10_pinned_accumulates_witness :
    ({ Particle.new 0 0 0 with fixed := true } : Particle).fixed = true ∧
    (forcedTicks ([⟨0, -2, 0⟩, ⟨0, -2, 0⟩] : List V3)
        { Particle.new 0 0 0 with fixed := true }).a =
      ({ Particle.new 0 0 0 with fixed := true } : Particle).a +
        V3.vsum (([⟨0, -2, 0⟩, ⟨0, -2, 0⟩] : List V3).map fun f =>
          f.divS ({ Particle.new 0 0 0 with fixed := true } : Particle).m) :=
  ⟨rfl,
    (C10_pinned_accumulates { Particle.new 0 0 0 with fixed := true } rfl
        ([⟨0, -2, 0⟩, ⟨0, -2, 0⟩] : List V3)).2.2.2.2.1⟩

/-! ### Claim C4: structure of the relaxation phase -/

theorem relaxLoop_eq_iterate (n : Nat) (g : Grid Particle) (cs : List Constraint) :
    relaxLoop n g cs = (fun h => relaxPass h cs)^[n] g := by
  induction n generalizing g with
  | zero => rfl
  | succ k ih =>
    have hstep : relaxLoop (k + 1) g cs = relaxLoop k (relaxPass g cs) cs := rfl
    rw [hstep, ih, Function.iterate_succ_apply]

/-- The correction vector of one constraint relaxation, written as the claim
states it: `DT * (distance - rest_length) * (delta / distance)` with
`delta = position(b) - position(a)`. -/
def relaxCorrection (g : Grid Particle) (ct : Constraint) : V3 :=
  (DT * (((g.atD ct.p2).p - (g.atD ct.p1).p).norm - ct.d)) •
    ((g.atD ct.p2).p - (g.atD ct.p1).p).divS
      (((g.atD ct.p2).p - (g.atD ct.p1).p).norm)

theorem relaxConstraint_getD (g : Grid Particle) (ct : Constraint)
    (h1 : g.pos ct.p1 < g.data.length) (h2 : g.pos ct.p2 < g.data.length)
    (hne : g.pos ct.p1 ≠ g.pos ct.p2) (j : Nat) :
    (relaxConstraint g ct).data.getD j pd =
      if j = g.pos ct.p1 then (g.data.getD j pd).offset (relaxCorrection g ct)
      else if j = g.pos ct.p2 then (g.data.getD j pd).offset (-relaxCorrection g ct)
      else g.data.getD j pd := by
  have hdata : (relaxConstraint g ct).data =
      modifyIdx (modifyIdx g.data (g.pos ct.p1) (fun q => q.offset (relaxCorrection g ct)))
        (g.pos ct.p2) (fun q => q.offset (-relaxCorrection g ct)) := rfl
  rw [hdata, getD_modifyIdx, length_modifyIdx, getD_modifyIdx]
  by_cases hj1 : j = g.pos ct.p1
  · rw [if_pos hj1, if_neg (by omega), if_pos ⟨hj1, by omega⟩]
  · rw [if_neg hj1]
    by_cases hj2 : j = g.pos ct.p2
    · rw [if_pos ⟨hj2, by omega⟩, if_neg (fun hc => hj1 hc.1), if_pos hj2]
    · rw [if_neg (fun hc => hj2 hc.1), if_neg (fun hc => hj1 hc.1), if_neg hj2]

/-- Claim C4: `Cloth::step` first runs exactly ten passes over the whole
constraint list (the counted loop is the tenfold iterate of one full pass) and
feeds the result to integration, so all relaxation happens before any particle
integrates; and within a pass, a constraint with in-bounds distinct endpoints
`a`, `b` and positive distance offsets particle `a` by
`DT * (distance - rest_length) * (delta / distance)` for
`delta = position(b) - position(a)` and particle `b` by its negation, leaving
every other particle unchanged. -/
theorem C4_relaxation_spec (c : Cloth) (g : Grid Particle) (ct : Constraint)
    (h1 : g.pos ct.p1 < g.data.length) (h2 : g.pos ct.p2 < g.data.length)
    (hne : g.pos ct.p1 ≠ g.pos ct.p2)
    (hd : 0 < ((g.atD ct.p2).p - (g.atD ct.p1).p).norm) :
    relaxLoop CONSTRAINTS_ITER c.particles c.constraints =
      (fun h => relaxPass h c.constraints)^[10] c.particles ∧
    c.step.particles.data =
      applyMods
        ((relaxLoop CONSTRAINTS_ITER c.particles c.constraints).data.map Particle.step)
        (collisionMods
          ((relaxLoop CONSTRAINTS_ITER c.particles c.constraints).data.map Particle.step)) ∧
    (∀ j : Nat,
      (relaxConstraint g ct).data.getD j pd =
        if j = g.pos ct.p1 then (g.data.getD j pd).offset (relaxCorrection g ct)
        else if j = g.pos ct.p2 then (g.data.getD j pd).offset (-relaxCorrection g ct)
        else g.data.getD j pd) :=
  ⟨relaxLoop_eq_iterate CONSTRAINTS_ITER c.particles c.constraints, rfl,
    relaxConstraint_getD g ct h1 h2 hne⟩

/-- Witness for C4: the single-constraint two-particle scenario; both endpoint
indices are in bounds, distinct, and two units apart. -/
theorem C4_relaxation_spec_witness :
    wG.pos wCt.p1 < wG.data.length ∧ wG.pos wCt.p2 < wG.data.length ∧
    wG.pos wCt.p1 ≠ wG.pos wCt.p2 ∧
    0 < ((wG.atD wCt.p2).p - (wG.atD wCt.p1).p).norm ∧
    relaxLoop CONSTRAINTS_ITER wCloth.particles wCloth.constraints =
      (fun h => relaxPass h wCloth.constraints)^[10] wCloth.particles := by
  have h1 : wG.pos wCt.p1 < wG.data.length := by
    simp [wG, wCt, Grid.pos]
  have h2 : wG.pos wCt.p2 < wG.data.length := by
    simp [wG, wCt, Grid.pos]
  have hne : wG.pos wCt.p1 ≠ wG.pos wCt.p2 := by
    simp [wG, wCt, Grid.pos]
  have hdiff : (wG.atD wCt.p2).p - (wG.atD wCt.p1).p = V3.mk 2 0 0 := by
    ext <;> simp [wG, wCt, wq1, wq2, Grid.atD, Grid.pos, Particle.new]
  have hd : 0 < ((wG.atD wCt.p2).p - (wG.atD wCt.p1).p).norm := by
    rw [hdiff, V3.norm_axisX]
    norm_num
  exact ⟨h1, h2, hne, hd, (C4_relaxation_spec wCloth wG wCt h1 h2 hne hd).1⟩

/-! ### Claim C9: one relaxation pass reduces the stretch error -/

/-- Claim C9: for a single constraint between two non-pinned endpoints
currently separated by exactly twice the (positive) rest length, one
relaxation pass strictly decreases the absolute deviation of the endpoint
distance from the rest length. -/
theorem C9_relaxation_reduces_error (q1 q2 : Particle) (r : ℝ) (hr : 0 < r)
    (h1 : q1.fixed = false) (h2 : q2.fixed = false)
    (hsep : (q2.p - q1.p).norm = 2 * r) :
    |(((relaxPass (Grid.mk [q1, q2] 2) [Constraint.mk (0, 0) (1, 0) r]).atD (1, 0)).p -
        ((relaxPass (Grid.mk [q1, q2] 2) [Constraint.mk (0, 0) (1, 0) r]).atD (0, 0)).p).norm
        - r| <
      |(q2.p - q1.p).norm - r| := by
  have hrne : r ≠ 0 := ne_of_gt hr
  have hfc : relaxCorrection (Grid.mk [q1, q2] 2) (Constraint.mk (0, 0) (1, 0) r) =
      (DT / 2) • (q2.p - q1.p) := by
    have ha1 : (Grid.mk [q1, q2] 2).atD ((0 : Nat), (0 : Nat)) = q1 := rfl
    have ha2 : (Grid.mk [q1, q2] 2).atD ((1 : Nat), (0 : Nat)) = q2 := rfl
    rw [relaxCorrection]
    simp only [ha1, ha2]
    rw [hsep, V3.divS_eq_smul, V3.smul_smul']
    have hs : DT * (2 * r - r) * (1 / (2 * r)) = DT / 2 := by
      field_simp
      ring
    rw [hs]
  have hpass : (relaxPass (Grid.mk [q1, q2] 2) [Constraint.mk (0, 0) (1, 0) r]).data =
      [{ q1 with p := q1.p + (DT / 2) • (q2.p - q1.p) },
       { q2 with p := q2.p + -((DT / 2) • (q2.p - q1.p)) }] := by
    have hrc : relaxPass (Grid.mk [q1, q2] 2) [Constraint.mk (0, 0) (1, 0) r] =
        relaxConstraint (Grid.mk [q1, q2] 2) (Constraint.mk (0, 0) (1, 0) r) := rfl
    have hdata : (relaxConstraint (Grid.mk [q1, q2] 2)
          (Constraint.mk (0, 0) (1, 0) r)).data =
        modifyIdx (modifyIdx [q1, q2] 0
            (fun q => q.offset (relaxCorrection (Grid.mk [q1, q2] 2)
              (Constraint.mk (0, 0) (1, 0) r))))
          1 (fun q => q.offset (-(relaxCorrection (Grid.mk [q1, q2] 2)
              (Constraint.mk (0, 0) (1, 0) r)))) := rfl
    rw [hrc, hdata, hfc]
    simp only [modifyIdx_cons_zero, modifyIdx_cons_succ]
    rw [Particle.offset_of_not_fixed h1, Particle.offset_of_not_fixed h2]
  have hd1 : ((relaxPass (Grid.mk [q1, q2] 2) [Constraint.mk (0, 0) (1, 0) r]).atD
      ((1 : Nat), (0 : Nat))).p = q2.p + -((DT / 2) • (q2.p - q1.p)) := by
    rw [Grid.atD]
    rw [hpass]
    rfl
  have hd0 : ((relaxPass (Grid.mk [q1, q2] 2) [Constraint.mk (0, 0) (1, 0) r]).atD
      ((0 : Nat), (0 : Nat))).p = q1.p + (DT / 2) • (q2.p - q1.p) := by
    rw [Grid.atD]
    rw [hpass]
    rfl
  rw [hd1, hd0]
  have hnewdiff : q2.p + -((DT / 2) • (q2.p - q1.p)) - (q1.p + (DT / 2) • (q2.p - q1.p)) =
      (1 - DT) • (q2.p - q1.p) := by
    ext <;> simp <;> ring
  rw [hnewdiff, V3.norm_smul, hsep]
  have hDT : |1 - DT| = 0.95 := by
    rw [DT]
    norm_num
  rw [hDT]
  rw [abs_of_pos (by nlinarith), abs_of_pos (by nlinarith)]
  nlinarith

/-- Witness for C9: endpoints at the origin and `(2, 0, 0)` with rest length
one. -/
theorem C9_relaxation_reduces_error_witness :
    (0 : ℝ) < 1 ∧ wq1.fixed = false ∧ wq2.fixed = false ∧
    (wq2.p - wq1.p).norm = 2 * 1 ∧
    |(((relaxPass (Grid.mk [wq1, wq2] 2) [Constraint.mk (0, 0) (1, 0) 1]).atD (1, 0)).p -
        ((relaxPass (Grid.mk [wq1, wq2] 2) [Constraint.mk (0, 0) (1, 0) 1]).atD (0, 0)).p).norm
        - 1| <
      |(wq2.p - wq1.p).norm - 1| := by
  have hdiff : wq2.p - wq1.p = V3.mk 2 0 0 := by
    ext <;> simp [wq1, wq2, Particle.new]
  have hsep : (wq2.p - wq1.p).norm = 2 * 1 := by
    rw [hdiff, V3.norm_axisX]
    norm_num
  exact ⟨by norm_num, rfl, rfl, hsep,
    C9_relaxation_reduces_error wq1 wq2 1 (by norm_num) rfl rfl hsep⟩

/-! ### Claim C7: corner pinning at construction -/

theorem getD_mem_of_lt (l : List α) (n : Nat) (d : α) (h : n < l.length) :
    l.getD n d ∈ l := by
  induction l generalizing n with
  | nil => simp at h
  | cons a as ih =>
    cases n with
    | zero => simp
    | succ k =>
      simp only [List.getD_cons_succ]
      exact List.mem_cons_of_mem a (ih k (by simpa using h))

theorem length_clothParts (w h : ℝ) (rz : Nat → Nat → ℝ) :
    (clothParts w h rz).length = 900 := by
  rw [clothParts, List.length_flatMap]
  simp only [Function.comp_def, List.length_map, List.length_range]
  decide

theorem clothParts_fixed (w h : ℝ) (rz : Nat → Nat → ℝ) (i : Nat) :
    ((clothParts w h rz).getD i pd).fixed = false := by
  by_cases hi : i < (clothParts w h rz).length
  · have hmem : (clothParts w h rz).getD i pd ∈ clothParts w h rz :=
      getD_mem_of_lt _ _ _ hi
    rw [clothParts] at hmem
    simp only [List.mem_flatMap, List.mem_map, List.mem_range] at hmem
    obtain ⟨y, -, x, -, hq⟩ := hmem
    rw [clothParts, ← hq]
    rfl
  · rw [List.getD_eq_default _ _ (le_of_not_lt hi)]
    rfl

/-- Evaluation of a fold of pin assignments: a slot reads as pinned exactly
when some coordinate of the list maps to it (in bounds), or it was already
pinned. -/
theorem foldl_pin_fixed (coords : List (Nat × Nat)) (g : Grid Particle) (j : Nat) :
    (((coords.foldl (fun gg idx =>
          gg.modifyAt idx (fun q => { q with fixed := true })) g)).data.getD j pd).fixed
        = true ↔
      ((j < g.data.length ∧ ∃ idx ∈ coords, g.pos idx = j) ∨
        (g.data.getD j pd).fixed = true) := by
  induction coords generalizing g with
  | nil => simp
  | cons c cs ih =>
    simp only [List.foldl_cons]
    rw [ih]
    have hget : (g.modifyAt c (fun q => { q with fixed := true })).data.getD j pd =
        if j = g.pos c ∧ j < g.data.length then { g.data.getD j pd with fixed := true }
        else g.data.getD j pd := by
      rw [Grid.modifyAt_data, getD_modifyIdx]
    have hlen : (g.modifyAt c (fun q => { q with fixed := true })).data.length =
        g.data.length := by
      rw [Grid.modifyAt_data, length_modifyIdx]
    have hpos : ∀ idx, (g.modifyAt c (fun q => { q with fixed := true })).pos idx =
        g.pos idx := fun _ => rfl
    rw [hget, hlen]
    by_cases hc : j = g.pos c ∧ j < g.data.length
    · rw [if_pos hc]
      constructor
      · intro _
        exact Or.inl ⟨hc.2, c, List.mem_cons_self c cs, hc.1.symm⟩
      · intro _
        exact Or.inr rfl
    · rw [if_neg hc]
      constructor
      · rintro (⟨hjl, idx, hidx, hpe⟩ | hb)
        · exact Or.inl ⟨hjl, idx, List.mem_cons_of_mem c hidx, by rw [← hpe, hpos]⟩
        · exact Or.inr hb
      · rintro (⟨hjl, idx, hidx, hpe⟩ | hb)
        · rcases List.mem_cons.mp hidx with rfl | hmem
          · exact absurd ⟨hpe.symm, hjl⟩ hc
          · exact Or.inl ⟨hjl, idx, hmem, by rw [hpos, hpe]⟩
        · exact Or.inr hb

theorem pinCorners_fixed_iff (w h : ℝ) (rz : Nat → Nat → ℝ) (j : Nat) :
    ((pinCorners (Grid.mk (clothParts w h rz) SUBDIVISIONS)).data.getD j pd).fixed = true ↔
      j ∈ ([0, 1, 28, 29, 870, 871, 898, 899] : List Nat) := by
  have hlen := length_clothParts w h rz
  have hbase := clothParts_fixed w h rz j
  rw [pinCorners, foldl_pin_fixed]
  simp only [hbase, Bool.false_eq_true, or_false, hlen]
  simp only [pinCoords, SUBDIVISIONS, Grid.pos, List.mem_cons, List.not_mem_nil, or_false,
    List.exists_mem_cons_iff]
  norm_num
  omega

/-- Claim C7: immediately after construction (subdivision count 30, the source
constant `SUBDIVISIONS`), exactly the eight corner-region grid coordinates
(0,0), (1,0), (28,0), (29,0), (0,29), (1,29), (28,29), (29,29) are pinned, and
every other grid coordinate is not pinned. -/
theorem C7_corner_pinning (w h : ℝ) (rz : Nat → Nat → ℝ) (x y : Nat)
    (hx : x < SUBDIVISIONS) (hy : y < SUBDIVISIONS) :
    (((Cloth.new w h rz).particles).atD (x, y)).fixed = true ↔
      (x, y) ∈ ([(0, 0), (1, 0), (28, 0), (29, 0),
                 (0, 29), (1, 29), (28, 29), (29, 29)] : List (Nat × Nat)) := by
  have hat : ((Cloth.new w h rz).particles).atD (x, y) =
      (pinCorners (Grid.mk (clothParts w h rz) SUBDIVISIONS)).data.getD (y * 30 + x) pd :=
    rfl
  rw [hat, pinCorners_fixed_iff]
  rw [SUBDIVISIONS] at hx hy
  simp only [List.mem_cons, List.not_mem_nil, or_false, Prod.mk.injEq]
  omega

/-- Witness for C7: at subdivision 30 the coordinate (1, 0) is pinned-listed
and in bounds. -/
theorem C7_corner_pinning_witness :
    (1 : Nat) < SUBDIVISIONS ∧ (0 : Nat) < SUBDIVISIONS ∧
    ((((Cloth.new 10 12 (fun _ _ => 20)).particles).atD (1, 0)).fixed = true ↔
      ((1 : Nat), (0 : Nat)) ∈ ([(0, 0), (1, 0), (28, 0), (29, 0),
                 (0, 29), (1, 29), (28, 29), (29, 29)] : List (Nat × Nat))) := by
  refine ⟨?_, ?_, ?_⟩
  · rw [SUBDIVISIONS]; norm_num
  · rw [SUBDIVISIONS]; norm_num
  · exact C7_corner_pinning 10 12 (fun _ _ => 20) 1 0
      (by rw [SUBDIVISIONS]; norm_num) (by rw [SUBDIVISIONS]; norm_num)

/-! ### Claim C6: the pinning query -/

theorem enum_getD (l : List α) (j : Nat) (h : j < l.length) (d : α) (dp : Nat × α) :
    l.enum.getD j dp = (j, l.getD j d) := by
  have h2 : j < l.enum.length := by rw [List.enum_length]; exact h
  rw [List.getD_eq_getElem _ _ h2, List.getD_eq_getElem _ _ h, List.getElem_enum]

theorem mem_keyedOf {ps : List Particle} {pt : V3} {e : ℝ × Nat}
    (he : e ∈ keyedOf ps pt) :
    e.2 < ps.length ∧ e.1 = distKey pt (ps.getD e.2 pd) := by
  rw [keyedOf] at he
  obtain ⟨iq, hiq, hfe⟩ := List.mem_map.mp he
  obtain ⟨i, q⟩ := iq
  rw [List.mk_mem_enum_iff_getElem?] at hiq
  obtain ⟨hlt, hq⟩ := List.getElem?_eq_some.mp hiq
  have hgd : ps.getD i pd = q := by
    rw [List.getD_eq_getElem _ _ hlt, hq]
  subst hfe
  exact ⟨hlt, by rw [hgd]⟩

theorem keyedOf_mem_of_lt (ps : List Particle) (pt : V3) (j : Nat)
    (h : j < ps.length) : (distKey pt (ps.getD j pd), j) ∈ keyedOf ps pt := by
  rw [keyedOf]
  refine List.mem_map.mpr ⟨(j, ps.getD j pd), ?_, rfl⟩
  rw [List.mk_mem_enum_iff_getElem?, List.getElem?_eq_getElem h]
  rw [List.getD_eq_getElem _ _ h]

theorem sorted_take_drop_rel {l : List (ℝ × Nat)} (hs : List.Sorted keyLE l) (k : Nat)
    {a b : ℝ × Nat} (ha : a ∈ l.take k) (hb : b ∈ l.drop k) : keyLE a b := by
  have h2 : List.Pairwise keyLE (l.take k ++ l.drop k) := by
    rw [List.take_append_drop]
    exact hs
  exact (List.pairwise_append.mp h2).2.2 a ha b hb

/-- Claim C6: `set_fixed(p, flag)` selects exactly `min 8 n` distinct valid
particle indices, every selected particle has squared distance to `p` at most
that of every unselected particle (ties resolved by the modelled stable
iteration order), the selected particles get their pinned flag set to the
given value, every unselected particle is left entirely unchanged, and no
particle position changes. -/
theorem C6_set_fixed_spec (c : Cloth) (pt : V3) (b : Bool) :
    (chosenIdx c.particles.data pt).length = min 8 c.particles.data.length ∧
    (chosenIdx c.particles.data pt).Nodup ∧
    (∀ i ∈ chosenIdx c.particles.data pt, i < c.particles.data.length) ∧
    (∀ i ∈ chosenIdx c.particles.data pt, ∀ j : Nat, j < c.particles.data.length →
      j ∉ chosenIdx c.particles.data pt →
      distKey pt (c.particles.data.getD i pd) ≤ distKey pt (c.particles.data.getD j pd)) ∧
    (c.set_fixed pt b).particles.data.length = c.particles.data.length ∧
    (∀ j : Nat, j < c.particles.data.length →
      (c.set_fixed pt b).particles.data.getD j pd =
        (if j ∈ chosenIdx c.particles.data pt then
          { c.particles.data.getD j pd with fixed := b }
         else c.particles.data.getD j pd)) ∧
    (∀ j : Nat, ((c.set_fixed pt b).particles.data.getD j pd).p =
        (c.particles.data.getD j pd).p) := by
  have hkl : (keyedOf c.particles.data pt).length = c.particles.data.length := by
    rw [keyedOf, List.length_map, List.enum_length]
  have hperm : List.Perm (sortKeyed (keyedOf c.particles.data pt))
      (keyedOf c.particles.data pt) := List.perm_insertionSort _ _
  have hsl : (sortKeyed (keyedOf c.particles.data pt)).length =
      c.particles.data.length := by
    rw [hperm.length_eq, hkl]
  have hsorted : List.Sorted keyLE (sortKeyed (keyedOf c.particles.data pt)) :=
    List.sorted_insertionSort _ _
  have hchlen : (chosenIdx c.particles.data pt).length =
      min 8 c.particles.data.length := by
    rw [chosenIdx, List.length_map, List.length_take, hsl]
  have hsndk : (keyedOf c.particles.data pt).map Prod.snd =
      List.range c.particles.data.length := by
    rw [keyedOf, List.map_map]
    have hco : (Prod.snd ∘ fun iq : Nat × Particle => (distKey pt iq.2, iq.1)) =
        Prod.fst := rfl
    rw [hco, List.enum_map_fst]
  have hnodup_snd : ((sortKeyed (keyedOf c.particles.data pt)).map Prod.snd).Nodup := by
    have hp2 : List.Perm ((sortKeyed (keyedOf c.particles.data pt)).map Prod.snd)
        ((keyedOf c.particles.data pt).map Prod.snd) := hperm.map _
    rw [hp2.nodup_iff, hsndk]
    exact List.nodup_range _
  have hchnodup : (chosenIdx c.particles.data pt).Nodup := by
    rw [chosenIdx, List.map_take]
    exact hnodup_snd.sublist (List.take_sublist _ _)
  have hmemch : ∀ i ∈ chosenIdx c.particles.data pt,
      ∃ e ∈ (sortKeyed (keyedOf c.particles.data pt)).take 8,
        e.2 = i ∧ e.1 = distKey pt (c.particles.data.getD i pd) := by
    intro i hi
    rw [chosenIdx] at hi
    obtain ⟨e, he, hei⟩ := List.mem_map.mp hi
    have hek : e ∈ keyedOf c.particles.data pt :=
      hperm.subset (List.mem_of_mem_take he)
    obtain ⟨-, hkey⟩ := mem_keyedOf hek
    exact ⟨e, he, hei, by rw [hkey, hei]⟩
  have hvalid : ∀ i ∈ chosenIdx c.particles.data pt, i < c.particles.data.length := by
    intro i hi
    obtain ⟨e, he, hei, -⟩ := hmemch i hi
    have hek : e ∈ keyedOf c.particles.data pt :=
      hperm.subset (List.mem_of_mem_take he)
    have := (mem_keyedOf hek).1
    rwa [hei] at this
  have hmin : ∀ i ∈ chosenIdx c.particles.data pt, ∀ j : Nat,
      j < c.particles.data.length → j ∉ chosenIdx c.particles.data pt →
      distKey pt (c.particles.data.getD i pd) ≤
        distKey pt (c.particles.data.getD j pd) := by
    intro i hi j hj hjn
    obtain ⟨e, he, hei, hkey⟩ := hmemch i hi
    have hjk : (distKey pt (c.particles.data.getD j pd), j) ∈
        keyedOf c.particles.data pt := keyedOf_mem_of_lt _ _ j hj
    have hjs : (distKey pt (c.particles.data.getD j pd), j) ∈
        sortKeyed (keyedOf c.particles.data pt) := hperm.symm.subset hjk
    have hjdrop : (distKey pt (c.particles.data.getD j pd), j) ∈
        (sortKeyed (keyedOf c.particles.data pt)).drop 8 := by
      rcases (List.mem_append.mp (by
        rw [List.take_append_drop 8 (sortKeyed (keyedOf c.particles.data pt))]
        exact hjs)) with htk | hdp
      · exfalso
        apply hjn
        rw [chosenIdx]
        exact List.mem_map.mpr ⟨_, htk, rfl⟩
      · exact hdp
    have hrel := sorted_take_drop_rel hsorted 8 he hjdrop
    rw [keyLE] at hrel
    calc distKey pt (c.particles.data.getD i pd) = e.1 := hkey.symm
      _ ≤ _ := hrel
  have hdata : (c.set_fixed pt b).particles.data =
      c.particles.data.enum.map (fun iq =>
        if iq.1 ∈ chosenIdx c.particles.data pt then { iq.2 with fixed := b }
        else iq.2) := rfl
  have hlen2 : (c.set_fixed pt b).particles.data.length = c.particles.data.length := by
    rw [hdata, List.length_map, List.enum_length]
  have hupd : ∀ j : Nat, j < c.particles.data.length →
      (c.set_fixed pt b).particles.data.getD j pd =
        (if j ∈ chosenIdx c.particles.data pt then
          { c.particles.data.getD j pd with fixed := b }
         else c.particles.data.getD j pd) := by
    intro j hj
    rw [hdata]
    rw [getD_map_of_lt _ _ j (by rw [List.enum_length]; exact hj) pd (j, pd)]
    rw [enum_getD c.particles.data j hj pd (j, pd)]
  refine ⟨hchlen, hchnodup, hvalid, hmin, hlen2, hupd, ?_⟩
  intro j
  by_cases hj : j < c.particles.data.length
  · rw [hupd j hj]
    by_cases hmem : j ∈ chosenIdx c.particles.data pt
    · rw [if_pos hmem]
    · rw [if_neg hmem]
  · rw [List.getD_eq_default _ _ (by rw [hlen2]; omega),
      List.getD_eq_default _ _ (by omega)]

/-- Witness for C6: evaluation at the two-particle cloth; with fewer than
eight particles the selection covers the whole grid. -/
theorem C6_set_fixed_spec_witness :
    (chosenIdx wCloth.particles.data 0).length = min 8 wCloth.particles.data.length ∧
    (chosenIdx wCloth.particles.data 0).Nodup ∧
    (∀ i ∈ chosenIdx wCloth.particles.data 0, i < wCloth.particles.data.length) ∧
    (∀ i ∈ chosenIdx wCloth.particles.data 0, ∀ j : Nat,
      j < wCloth.particles.data.length → j ∉ chosenIdx wCloth.particles.data 0 →
      distKey 0 (wCloth.particles.data.getD i pd) ≤
        distKey 0 (wCloth.particles.data.getD j pd)) ∧
    (wCloth.set_fixed 0 true).particles.data.length = wCloth.particles.data.length ∧
    (∀ j : Nat, j < wCloth.particles.data.length →
      (wCloth.set_fixed 0 true).particles.data.getD j pd =
        (if j ∈ chosenIdx wCloth.particles.data 0 then
          { wCloth.particles.data.getD j pd with fixed := true }
         else wCloth.particles.data.getD j pd)) ∧
    (∀ j : Nat, ((wCloth.set_fixed 0 true).particles.data.getD j pd).p =
        (wCloth.particles.data.getD j pd).p) :=
  C6_set_fixed_spec wCloth 0 true

/-! ### Claim C1: addressing of the deferred collision corrections -/

theorem bugP1_ne_bugP2 : bugP1 ≠ bugP2 := by
  intro h
  have h2 := congrArg (fun q : Particle => q.p.x) h
  simp only [bugP1, bugP2, Particle.new] at h2
  norm_num at h2

theorem bug_diff_12 : bugP2.p - bugP1.p = V3.mk 0.2 0 0 := by
  ext <;> simp [bugP1, bugP2, Particle.new] <;> norm_num

theorem bug_norm_12 : (bugP2.p - bugP1.p).norm = 0.2 := by
  rw [bug_diff_12, V3.norm_axisX]
  norm_num

/-- Claim C1 evidence: with non-pinned particles at x = 0, 10 and 10.2
(`EPSILON = 0.3`), the pair (1, 2) is separated by 0.2, strictly between 0 and
EPSILON, yet the pass pushes both of its pending adjustments carrying index 1:
the inner enumerate index restarts at zero after `skip(i1)`, so the negative
correction is addressed to slot `2 - 1 = 1` instead of particle 2.  Applying
the collected adjustments cancels on particle 1, particle 2 receives nothing,
every position is unchanged, and the post-pass separation of the pair stays
0.2 < EPSILON, contradicting the claimed equal-and-opposite separation. -/
theorem C1_collision_index_bug :
    bugP1.fixed = false ∧ bugP2.fixed = false ∧
    0 < (bugP2.p - bugP1.p).norm ∧ (bugP2.p - bugP1.p).norm < EPSILON ∧
    collisionMods [bugP0, bugP1, bugP2] =
      [(1, collideDelta bugP1 bugP2), (1, -collideDelta bugP1 bugP2)] ∧
    applyMods [bugP0, bugP1, bugP2] (collisionMods [bugP0, bugP1, bugP2]) =
      [bugP0, bugP1, bugP2] ∧
    (((applyMods [bugP0, bugP1, bugP2] (collisionMods [bugP0, bugP1, bugP2])).getD 2 pd).p -
      ((applyMods [bugP0, bugP1, bugP2] (collisionMods [bugP0, bugP1, bugP2])).getD 1 pd).p).norm
      < EPSILON := by
  have hg12 : collideGuard bugP1 bugP2 := by
    refine ⟨bugP1_ne_bugP2, ?_⟩
    rw [bug_norm_12, EPSILON]
    norm_num
  have hng01 : ¬ collideGuard bugP0 bugP1 := by
    intro hg
    have hd : bugP1.p - bugP0.p = V3.mk 10 0 0 := by
      ext <;> simp [bugP0, bugP1, Particle.new]
    have := hg.2
    rw [hd, V3.norm_axisX, EPSILON] at this
    norm_num at this
  have hng02 : ¬ collideGuard bugP0 bugP2 := by
    intro hg
    have hd : bugP2.p - bugP0.p = V3.mk 10.2 0 0 := by
      ext <;> simp [bugP0, bugP2, Particle.new]
    have := hg.2
    rw [hd, V3.norm_axisX, EPSILON, abs_of_nonneg (by norm_num)] at this
    norm_num at this
  have e00 : pairMods 0 0 bugP0 bugP0 = [] := pairMods_self 0 0 bugP0
  have e11 : pairMods 1 0 bugP1 bugP1 = [] := pairMods_self 1 0 bugP1
  have e22 : pairMods 2 0 bugP2 bugP2 = [] := pairMods_self 2 0 bugP2
  have e01 : pairMods 0 1 bugP0 bugP1 = [] := by
    rw [pairMods, if_neg hng01]
  have e02 : pairMods 0 2 bugP0 bugP2 = [] := by
    rw [pairMods, if_neg hng02]
  have e12 : pairMods 1 1 bugP1 bugP2 =
      [(1, collideDelta bugP1 bugP2), (1, -collideDelta bugP1 bugP2)] := by
    rw [pairMods, if_pos hg12]
  have hmods : collisionMods [bugP0, bugP1, bugP2] =
      [(1, collideDelta bugP1 bugP2), (1, -collideDelta bugP1 bugP2)] := by
    simp [collisionMods, List.enum, List.enumFrom, e00, e11, e22, e01, e02, e12]
  have happ : (bugP1.offset (collideDelta bugP1 bugP2)).offset
      (-collideDelta bugP1 bugP2) = bugP1 := by
    rw [Particle.offset_of_not_fixed rfl, Particle.offset_of_not_fixed rfl]
    ext <;> simp <;> ring
  have happly : applyMods [bugP0, bugP1, bugP2] (collisionMods [bugP0, bugP1, bugP2]) =
      [bugP0, bugP1, bugP2] := by
    rw [hmods]
    show modifyIdx (modifyIdx [bugP0, bugP1, bugP2] 1
        (fun q => q.offset (collideDelta bugP1 bugP2))) 1
        (fun q => q.offset (-collideDelta bugP1 bugP2)) = [bugP0, bugP1, bugP2]
    simp only [modifyIdx_cons_succ, modifyIdx_cons_zero]
    rw [happ]
  refine ⟨rfl, rfl, ?_, ?_, hmods, happly, ?_⟩
  · rw [bug_norm_12]
    norm_num
  · rw [bug_norm_12, EPSILON]
    norm_num
  · rw [happly]
    show (bugP2.p - bugP1.p).norm < EPSILON
    rw [bug_norm_12, EPSILON]
    norm_num

end ClothSim
